import Mathlib

/-!
Verification of the dataset splitting engine of `analyzer/views.py`
(`_split_dataframe` and `_stratified_split`).

Modelling conventions (shallow embedding):
* A pandas `DataFrame` is a column-name list together with a list of rows;
  each row carries its integer index label (pandas keeps original labels
  under `iloc` slicing and renumbers them under `reset_index(drop=True)`).
* Cell values are numeric, text, or missing (`NaN`).
* Python `float` literals `0.6`, `0.2`, `0.8`, `1e-6` are modelled as the
  exact rationals `3/5`, `1/5`, `4/5`, `1/1000000`; `int(x)` on a float is
  truncation toward zero, which on the nonnegative products arising here
  coincides with the floor (and the model `pyIntNat` clamps negatives to 0,
  matching `Int.toNat`; Python's negative-slice semantics are unreachable
  under the nonnegative-ratio hypotheses used below).
* `np.random.default_rng(seed)` / `random_state=seed` are modelled by a
  deterministic linear-congruential generator seeded from the integer seed;
  `rng.shuffle` / `.sample(frac=1.0)` are a Fisher–Yates-style shuffle that
  consumes generator state (one draw per element), producing a permutation
  of its input.  The exact permutation differs from NumPy's PCG64 stream,
  but the properties verified below (determinism in the seed, permutation
  of the input, sequential consumption of one shared generator across
  groups) are those of the source.
* Exceptions (`assert`, pandas `KeyError` on a missing group column,
  `ValueError` from `pd.concat([])`) become an `Except` error channel.
-/

namespace Data07

/-- A cell value of the table: numeric, text, or missing (`NaN`). -/
inductive Value where
  | num (x : Int) : Value
  | text (s : String) : Value
  | missing : Value
deriving DecidableEq

/-- A row of a pandas DataFrame: its integer index label and its cells. -/
abbrev PRow := Nat × List Value

/-- A pandas DataFrame: ordered column names and labelled rows. -/
structure DataFrame where
  cols : List String
  rows : List PRow
deriving DecidableEq

/-- `len(df)`. -/
def DataFrame.len (df : DataFrame) : Nat := df.rows.length

/-- Generator state (models `np.random` generator objects). -/
structure Rng where
  state : Nat
deriving DecidableEq

/-- One step of the linear congruential generator (64-bit). -/
def lcgNext (s : Nat) : Nat :=
  (6364136223846793005 * s + 1442695040888963407) % 18446744073709551616

/-- `np.random.default_rng(seed)`: a fresh generator from an integer seed. -/
def mkRng (seed : Nat) : Rng := ⟨lcgNext seed⟩

/-- Draw a number below `n` (for `n > 0`), advancing the generator. -/
def randBelow (r : Rng) (n : Nat) : Nat × Rng :=
  (r.state % n, ⟨lcgNext r.state⟩)

/-- Move the element at position `j` to the front (helper for shuffling). -/
def extractAt : List α → Nat → List α
  | [], _ => []
  | x :: xs, 0 => x :: xs
  | x :: xs, j + 1 =>
    match extractAt xs j with
    | [] => [x]
    | y :: rest => y :: x :: rest

/-- Fisher–Yates-style shuffle: repeatedly draw a position and move that
element to the front, recursing on the rest.  `fuel` bounds the recursion. -/
def shuffleGo : Nat → Rng → List α → List α × Rng
  | 0, r, xs => (xs, r)
  | _ + 1, r, [] => ([], r)
  | fuel + 1, r, x :: xs =>
    let (j, r1) := randBelow r (x :: xs).length
    match extractAt (x :: xs) j with
    | [] => ([], r1)
    | y :: rest =>
      let (tl, r2) := shuffleGo fuel r1 rest
      (y :: tl, r2)

/-- `rng.shuffle(xs)` / `.sample(frac=1.0)`: a seeded permutation of `xs`,
returning the shuffled list and the advanced generator. -/
def shuffle (r : Rng) (xs : List α) : List α × Rng :=
  shuffleGo xs.length r xs

/-- `df.iloc[js]`: the rows at the given positions (index labels kept). -/
def pick (rows : List PRow) (js : List Nat) : List PRow :=
  js.filterMap rows.get?

/-- The value of row `r` in the column at position `ci`. -/
def rowLabel (ci : Nat) (r : PRow) : Value :=
  (r.2.get? ci).getD Value.missing

/-- Python `int()` of a rational, clamped to `Nat` (slice arguments are
nonnegative under the hypotheses used below, where `int` = floor). -/
def pyIntNat (q : ℚ) : Nat := (⌊q⌋).toNat

/-- Lexicographic comparison of character lists (by code point). -/
def charsLe : List Char → List Char → Bool
  | [], _ => true
  | _ :: _, [] => false
  | c :: cs, d :: ds =>
    if c.toNat < d.toNat then true
    else if d.toNat < c.toNat then false
    else charsLe cs ds

/-- Key order used by `df.groupby(..., sort=True)`: numbers before text,
missing (`NaN`) last; text keys in lexicographic order. -/
def vleBool : Value → Value → Bool
  | .num a, .num b => a ≤ b
  | .num _, _ => true
  | .text _, .num _ => false
  | .text a, .text b => charsLe a.data b.data
  | .text _, .missing => true
  | .missing, .missing => true
  | .missing, _ => false

/-- Insertion into a sorted key list. -/
def insertSorted (x : Value) : List Value → List Value
  | [] => [x]
  | y :: ys => if vleBool x y then x :: y :: ys else y :: insertSorted x ys

/-- Insertion sort of the group keys. -/
def sortKeys (l : List Value) : List Value :=
  l.foldr insertSorted []

/-- The distinct keys of `df.groupby(column ci, dropna=False)`, in the
deterministic iteration order (sorted, `NaN` last). -/
def labelKeys (df : DataFrame) (ci : Nat) : List Value :=
  sortKeys ((df.rows.map (rowLabel ci)).dedup)

/-- The groups of `df.groupby(column ci, dropna=False)`, in iteration
order; each group keeps the original row order. -/
def groupsOf (df : DataFrame) (ci : Nat) : List (List PRow) :=
  (labelKeys df ci).map (fun k => df.rows.filter (fun r => decide (rowLabel ci r = k)))

/-- Exceptions the split code can raise. -/
inductive SplitError where
  | assertionError  -- `assert abs(sum(ratios) - 1.0) < 1e-6`
  | keyError        -- `df.groupby(label_col)` with an absent column
  | valueError      -- `pd.concat([])` when there are no groups (empty table)
deriving DecidableEq

/-- `_split_dataframe(df, seed)` (views.py:28-39): shuffle all row positions
once with a seed-derived generator, cut at `int(0.6*n)` and `int(0.8*n)`,
and return the three `iloc` slices (original index labels kept).  The
ratios 60/20/20 are hard-coded; the function takes no ratios argument and
performs no validation. -/
def split_dataframe (df : DataFrame) (seed : Nat) :
    DataFrame × DataFrame × DataFrame :=
  let n := df.len
  let indices := (shuffle (mkRng seed) (List.range n)).1
  let t1 := pyIntNat ((3 / 5 : ℚ) * n)
  let t2 := pyIntNat ((4 / 5 : ℚ) * n)
  (⟨df.cols, pick df.rows (indices.take t1)⟩,
   ⟨df.cols, pick df.rows ((indices.drop t1).take (t2 - t1))⟩,
   ⟨df.cols, pick df.rows (indices.drop t2)⟩)

/-- The loop body of `_stratified_split` (views.py:53-65): for each group in
iteration order, shuffle the group's positions with the single shared
generator (its state is threaded through the whole loop), cut at
`int(ratios[0]*n)` and that plus `int(ratios[1]*n)`, and record the three
`iloc` slices of the group. -/
def splitGroups (ra : ℚ × ℚ × ℚ) :
    Rng → List (List PRow) → List (List PRow × List PRow × List PRow) × Rng
  | rng, [] => ([], rng)
  | rng, g :: gs =>
    let n := g.length
    let (idx, rng1) := shuffle rng (List.range n)
    let n_train := pyIntNat (ra.1 * n)
    let n_val := pyIntNat (ra.2.1 * n)
    let part := (pick g (idx.take n_train),
                 pick g ((idx.drop n_train).take n_val),
                 pick g (idx.drop (n_train + n_val)))
    let (rest, rng2) := splitGroups ra rng1 gs
    (part :: rest, rng2)

/-- `pd.concat(parts, axis=0)` on the per-group slices. -/
def pdConcatRows (parts : List (List PRow)) : List PRow :=
  parts.foldr (· ++ ·) []

/-- `.sample(frac=1.0, random_state=seed)`: a full reshuffle by a fresh
generator seeded with `seed` (index labels travel with their rows). -/
def sampleFrac1 (seed : Nat) (rows : List PRow) : List PRow :=
  (shuffle (mkRng seed) rows).1

/-- `.reset_index(drop=True)`: renumber the rows `0..len-1`. -/
def resetIndex (rows : List PRow) : List PRow :=
  (rows.map Prod.snd).enum

/-- The per-group `(train, val, test)` slices accumulated by the loop of
`_stratified_split`, at iteration order `groupsOf df ci`. -/
def partsOf (df : DataFrame) (ci : Nat) (ratios : ℚ × ℚ × ℚ) (seed : Nat) :
    List (List PRow × List PRow × List PRow) :=
  (splitGroups ratios (mkRng seed) (groupsOf df ci)).1

/-- `train_df = pd.concat(train_parts).sample(frac=1.0, random_state=seed).reset_index(drop=True)`. -/
def trainDF (df : DataFrame) (ci : Nat) (ratios : ℚ × ℚ × ℚ) (seed : Nat) : DataFrame :=
  ⟨df.cols, resetIndex (sampleFrac1 seed (pdConcatRows ((partsOf df ci ratios seed).map (·.1))))⟩

/-- `val_df`, built like `train_df` from the middle slices. -/
def valDF (df : DataFrame) (ci : Nat) (ratios : ℚ × ℚ × ℚ) (seed : Nat) : DataFrame :=
  ⟨df.cols, resetIndex (sampleFrac1 seed (pdConcatRows ((partsOf df ci ratios seed).map (·.2.1))))⟩

/-- `test_df`, built like `train_df` from the final slices. -/
def testDF (df : DataFrame) (ci : Nat) (ratios : ℚ × ℚ × ℚ) (seed : Nat) : DataFrame :=
  ⟨df.cols, resetIndex (sampleFrac1 seed (pdConcatRows ((partsOf df ci ratios seed).map (·.2.2))))⟩

/-- The concatenation stage of `_stratified_split` (views.py:67-70):
`pd.concat` raises `ValueError` when the parts list is empty (no groups,
i.e. the table had zero rows); otherwise the three partitions are
assembled, reshuffled and reindexed. -/
def concatStage (df : DataFrame) (ci : Nat) (ratios : ℚ × ℚ × ℚ) (seed : Nat) :
    Except SplitError (DataFrame × DataFrame × DataFrame) :=
  match partsOf df ci ratios seed with
  | [] => .error .valueError
  | _ :: _ =>
    .ok (trainDF df ci ratios seed, valDF df ci ratios seed, testDF df ci ratios seed)

/-- `_stratified_split(df, label_col, seed, ratios)` (views.py:42-70):
assert the ratios sum to 1 within `1e-6`; group by the label column
(`KeyError` if absent; `NaN` forms its own group, groups iterated in sorted
key order with `NaN` last); per group shuffle-and-cut with the shared
generator; then concatenate each partition's group slices (`ValueError`
from `pd.concat([])` when there are no groups, i.e. the table is empty),
reshuffle each with a fresh seed-`seed` generator, and reset the index. -/
def stratified_split (df : DataFrame) (label_col : String) (seed : Nat)
    (ratios : ℚ × ℚ × ℚ) :
    Except SplitError (DataFrame × DataFrame × DataFrame) :=
  if |ratios.1 + ratios.2.1 + ratios.2.2 - 1| < 1 / 1000000 then
    match df.cols.findIdx? (fun c => decide (c = label_col)) with
    | none => .error .keyError
    | some ci => concatStage df ci ratios seed
  else .error .assertionError

/-- The number of rows of `rows` whose label (column `ci`) is `k`. -/
def countVal (ci : Nat) (k : Value) (rows : List PRow) : Nat :=
  (rows.filter (fun r => decide (rowLabel ci r = k))).length

/-- The size of the group of key `k` in `df.groupby(column ci)`. -/
def groupSize (df : DataFrame) (ci : Nat) (k : Value) : Nat :=
  countVal ci k df.rows

/-- The generator state after shuffling groups of the given sizes in
sequence (the loop body consumes randomness for each group in iteration
order). -/
def rngAfterGroups (rng : Rng) : List Nat → Rng
  | [] => rng
  | n :: ns => rngAfterGroups (shuffle rng (List.range n)).2 ns

/-- `splitGroups` at ratios `(0.6, 0.2, 0.2)` with the cuts evaluated:
`int(0.6*n) = 3n/5` and `int(0.2*n) = n/5`. -/
def splitGroupsN :
    Rng → List (List PRow) → List (List PRow × List PRow × List PRow) × Rng
  | rng, [] => ([], rng)
  | rng, g :: gs =>
    let n := g.length
    let (idx, rng1) := shuffle rng (List.range n)
    let part := (pick g (idx.take (3 * n / 5)),
                 pick g ((idx.drop (3 * n / 5)).take (n / 5)),
                 pick g (idx.drop (3 * n / 5 + n / 5)))
    let (rest, rng2) := splitGroupsN rng1 gs
    (part :: rest, rng2)

/-- `df.iloc[js]` with the receiver threaded: returns the new frame and the
untouched receiver. -/
def ilocSt (df : DataFrame) (js : List Nat) : DataFrame × DataFrame :=
  (⟨df.cols, pick df.rows js⟩, df)

/-- `_split_dataframe` with the input table threaded through every step;
the second component is the input table as the caller sees it afterwards. -/
def split_dataframe_st (df : DataFrame) (seed : Nat) :
    (DataFrame × DataFrame × DataFrame) × DataFrame :=
  let n := df.len
  let indices := (shuffle (mkRng seed) (List.range n)).1
  let t1 := pyIntNat ((3 / 5 : ℚ) * n)
  let t2 := pyIntNat ((4 / 5 : ℚ) * n)
  let (tr, df1) := ilocSt df (indices.take t1)
  let (va, df2) := ilocSt df1 ((indices.drop t1).take (t2 - t1))
  let (te, df3) := ilocSt df2 (indices.drop t2)
  ((tr, va, te), df3)

/-- `df.groupby(...)` with the receiver threaded. -/
def groupbySt (df : DataFrame) (ci : Nat) : List (List PRow) × DataFrame :=
  (groupsOf df ci, df)

/-- `_stratified_split` with the input table threaded through every step;
the second component is the input table as the caller sees it afterwards. -/
def stratified_split_st (df : DataFrame) (label_col : String) (seed : Nat)
    (ratios : ℚ × ℚ × ℚ) :
    Except SplitError (DataFrame × DataFrame × DataFrame) × DataFrame :=
  if |ratios.1 + ratios.2.1 + ratios.2.2 - 1| < 1 / 1000000 then
    match df.cols.findIdx? (fun c => decide (c = label_col)) with
    | none => (.error .keyError, df)
    | some ci =>
      let (groups, df1) := groupbySt df ci
      let (parts, _) := splitGroups ratios (mkRng seed) groups
      match parts with
      | [] => (.error .valueError, df1)
      | _ :: _ =>
        (.ok (trainDF df1 ci ratios seed, valDF df1 ci ratios seed,
              testDF df1 ci ratios seed), df1)
  else (.error .assertionError, df)

/-- The value rows of a split result's train partition (empty on error);
used to compare concrete runs. -/
def trainValues (r : Except SplitError (DataFrame × DataFrame × DataFrame)) :
    List (List Value) :=
  match r with
  | .ok (t, _, _) => t.rows.map Prod.snd
  | .error _ => []

/-- A 5-row example table with a text label column `"class"`. -/
def exDF : DataFrame :=
  ⟨["class", "x"],
   [(0, [Value.text "a", Value.num 0]), (1, [Value.text "b", Value.num 1]),
    (2, [Value.text "a", Value.num 2]), (3, [Value.text "b", Value.num 3]),
    (4, [Value.text "a", Value.num 4])]⟩

/-- A 100-row table whose label column takes value `A` on 50 rows, `B` on
30 rows and `C` on 20 rows (the spec's worked example). -/
def df100 : DataFrame :=
  ⟨["class"],
   ((List.range 50).map (fun i => (i, [Value.text "A"]))) ++
   ((List.range 30).map (fun i => (50 + i, [Value.text "B"]))) ++
   ((List.range 20).map (fun i => (80 + i, [Value.text "C"])))⟩

/-- A table with a single label group `"b"` (three rows). -/
def dfB : DataFrame :=
  ⟨["c", "x"],
   [(0, [Value.text "b", Value.num 0]), (1, [Value.text "b", Value.num 1]),
    (2, [Value.text "b", Value.num 2])]⟩

/-- The same `"b"` rows plus a second group `"a"` that precedes `"b"` in
iteration order. -/
def dfAB : DataFrame :=
  ⟨["c", "x"],
   [(0, [Value.text "b", Value.num 0]), (1, [Value.text "b", Value.num 1]),
    (2, [Value.text "b", Value.num 2]),
    (3, [Value.text "a", Value.num 3]), (4, [Value.text "a", Value.num 4])]⟩

/-- A table in which three rows have a missing label value. -/
def dfMiss : DataFrame :=
  ⟨["class"],
   [(0, [Value.text "a"]), (1, [Value.missing]), (2, [Value.missing]),
    (3, [Value.missing])]⟩

/-- A zero-row table with one column. -/
def emptyDF : DataFrame := ⟨["c"], []⟩

/-! ### Basic facts about the shuffle -/

theorem extractAt_perm (xs : List α) (j : Nat) : (extractAt xs j).Perm xs := by
  induction xs generalizing j with
  | nil => simp [extractAt]
  | cons x xs ih =>
    cases j with
    | zero => simp [extractAt]
    | succ j =>
      simp only [extractAt]
      cases h : extractAt xs j with
      | nil =>
        have hp := ih j
        rw [h] at hp
        have hx : xs = [] := hp.nil_eq.symm
        subst hx
        exact List.Perm.refl _
      | cons y rest =>
        have hp := ih j
        rw [h] at hp
        exact (List.Perm.swap x y rest).trans (hp.cons x)

theorem extractAt_length (xs : List α) (j : Nat) :
    (extractAt xs j).length = xs.length :=
  (extractAt_perm xs j).length_eq

theorem shuffleGo_fst_perm :
    ∀ (fuel : Nat) (r : Rng) (xs : List α), (shuffleGo fuel r xs).1.Perm xs := by
  intro fuel
  induction fuel with
  | zero => intro r xs; simp [shuffleGo]
  | succ fuel ih =>
    intro r xs
    cases xs with
    | nil => simp [shuffleGo]
    | cons x xs =>
      simp only [shuffleGo]
      cases h : extractAt (x :: xs) (randBelow r (x :: xs).length).1 with
      | nil =>
        have hp := extractAt_perm (x :: xs) (randBelow r (x :: xs).length).1
        rw [h] at hp
        exact absurd hp.nil_eq (by simp)
      | cons y rest =>
        have hp := extractAt_perm (x :: xs) (randBelow r (x :: xs).length).1
        rw [h] at hp
        exact ((ih _ rest).cons y).trans hp

theorem shuffle_nil (r : Rng) : shuffle (α := α) r [] = ([], r) := rfl

theorem shuffle_fst_perm (r : Rng) (xs : List α) : (shuffle r xs).1.Perm xs :=
  shuffleGo_fst_perm xs.length r xs

theorem shuffle_fst_length (r : Rng) (xs : List α) :
    (shuffle r xs).1.length = xs.length :=
  (shuffle_fst_perm r xs).length_eq

/-- The generator state consumed by a shuffle depends only on the length of
the shuffled list, not on its contents. -/
theorem shuffleGo_snd_congr :
    ∀ (fuel : Nat) (r : Rng) (xs : List α) (ys : List β),
      xs.length = ys.length → (shuffleGo fuel r xs).2 = (shuffleGo fuel r ys).2 := by
  intro fuel
  induction fuel with
  | zero => intro r xs ys _; simp [shuffleGo]
  | succ fuel ih =>
    intro r xs ys hlen
    cases xs with
    | nil =>
      cases ys with
      | nil => simp [shuffleGo]
      | cons y ys => simp at hlen
    | cons x xs =>
      cases ys with
      | nil => simp at hlen
      | cons y ys =>
        simp only [shuffleGo]
        have hlen' : (x :: xs).length = (y :: ys).length := hlen
        cases hx : extractAt (x :: xs) (randBelow r (x :: xs).length).1 with
        | nil =>
          have hp := extractAt_perm (x :: xs) (randBelow r (x :: xs).length).1
          rw [hx] at hp
          exact absurd hp.nil_eq (by simp)
        | cons x' restx =>
          cases hy : extractAt (y :: ys) (randBelow r (y :: ys).length).1 with
          | nil =>
            have hp := extractAt_perm (y :: ys) (randBelow r (y :: ys).length).1
            rw [hy] at hp
            exact absurd hp.nil_eq (by simp)
          | cons y' resty =>
            have hlx : restx.length + 1 = (x :: xs).length := by
              have := extractAt_length (x :: xs) (randBelow r (x :: xs).length).1
              rw [hx] at this
              simpa using this
            have hly : resty.length + 1 = (y :: ys).length := by
              have := extractAt_length (y :: ys) (randBelow r (y :: ys).length).1
              rw [hy] at this
              simpa using this
            have hrest : restx.length = resty.length := by omega
            rw [hlen']
            exact ih _ restx resty hrest

theorem shuffle_snd_congr (r : Rng) (xs : List α) (ys : List β)
    (h : xs.length = ys.length) : (shuffle r xs).2 = (shuffle r ys).2 := by
  unfold shuffle
  rw [h]
  exact shuffleGo_snd_congr ys.length r xs ys h

/-! ### Basic facts about `pick` (`iloc`) -/

theorem pick_append (rows : List PRow) (a b : List Nat) :
    pick rows (a ++ b) = pick rows a ++ pick rows b :=
  List.filterMap_append a b rows.get?

theorem pick_mem {rows : List PRow} {js : List Nat} {r : PRow}
    (h : r ∈ pick rows js) : r ∈ rows := by
  obtain ⟨j, _, hj⟩ := List.mem_filterMap.1 h
  exact List.get?_mem hj

theorem pick_perm (rows : List PRow) {js ks : List Nat} (h : js.Perm ks) :
    (pick rows js).Perm (pick rows ks) :=
  h.filterMap rows.get?

theorem filterMap_get?_range : ∀ (l : List α),
    (List.range l.length).filterMap l.get? = l := by
  intro l
  induction l with
  | nil => simp
  | cons x l ih =>
    have hcomp : (x :: l).get? ∘ Nat.succ = l.get? := by
      funext i
      simp
    rw [List.length_cons, List.range_succ_eq_map, List.filterMap_cons,
        List.filterMap_map, hcomp]
    simp [ih]

theorem pick_range (rows : List PRow) :
    pick rows (List.range rows.length) = rows :=
  filterMap_get?_range rows

theorem pick_length {rows : List PRow} {js : List Nat}
    (h : ∀ j ∈ js, j < rows.length) : (pick rows js).length = js.length := by
  induction js with
  | nil => rfl
  | cons j js ih =>
    have hj : rows.get? j = some (rows.get ⟨j, h j (by simp)⟩) :=
      List.get?_eq_get (h j (by simp))
    have htl := ih (fun i hi => h i (by simp [hi]))
    simp only [pick, List.filterMap_cons, hj] at *
    simp [htl]

/-! ### Arithmetic facts about `pyIntNat` (Python `int()` on the rationals
modelling the source's float expressions) -/

theorem pyIntNat_div_nat (a b n : Nat) :
    pyIntNat ((a / b : ℚ) * n) = a * n / b := by
  unfold pyIntNat
  rw [div_mul_eq_mul_div]
  have h1 : ((a : ℚ) * n) = (((a * n : ℕ) : ℤ) : ℚ) := by push_cast; ring
  rw [h1, Rat.floor_intCast_div_natCast]
  have h2 : ((a * n : ℕ) : ℤ) / (b : ℤ) = ((a * n / b : ℕ) : ℤ) :=
    (Int.ofNat_div _ _).symm
  rw [h2, Int.toNat_ofNat]

theorem pyIntNat_natCast (m : Nat) : pyIntNat (m : ℚ) = m := by
  unfold pyIntNat
  rw [Int.floor_natCast, Int.toNat_ofNat]

theorem pyIntNat_mono {q r : ℚ} (h : q ≤ r) : pyIntNat q ≤ pyIntNat r :=
  Int.toNat_le_toNat (Int.floor_le_floor h)

theorem pyIntNat_le_of_le_one {r : ℚ} (hr : r ≤ 1) (m : Nat) :
    pyIntNat (r * m) ≤ m := by
  have h : r * m ≤ (m : ℚ) := by
    calc r * m ≤ 1 * m := mul_le_mul_of_nonneg_right hr (Nat.cast_nonneg m)
    _ = (m : ℚ) := one_mul _
  calc pyIntNat (r * m) ≤ pyIntNat (m : ℚ) := pyIntNat_mono h
  _ = m := pyIntNat_natCast m

theorem pyIntNat_add_le {r1 r2 : ℚ} (h1 : 0 ≤ r1) (h2 : 0 ≤ r2)
    (h12 : r1 + r2 ≤ 1) (m : Nat) :
    pyIntNat (r1 * m) + pyIntNat (r2 * m) ≤ m := by
  have hm1 : (0 : ℚ) ≤ r1 * m := mul_nonneg h1 (Nat.cast_nonneg m)
  have hm2 : (0 : ℚ) ≤ r2 * m := mul_nonneg h2 (Nat.cast_nonneg m)
  have hf1 : (0 : ℤ) ≤ ⌊r1 * (m : ℚ)⌋ := Int.floor_nonneg.2 hm1
  have hf2 : (0 : ℤ) ≤ ⌊r2 * (m : ℚ)⌋ := Int.floor_nonneg.2 hm2
  have hsum : ⌊r1 * (m : ℚ)⌋ + ⌊r2 * (m : ℚ)⌋ ≤ ⌊r1 * (m : ℚ) + r2 * (m : ℚ)⌋ := by
    apply Int.le_floor.2
    push_cast
    exact add_le_add (Int.floor_le _) (Int.floor_le _)
  have hle : r1 * (m : ℚ) + r2 * (m : ℚ) ≤ (m : ℚ) := by
    have : (r1 + r2) * (m : ℚ) ≤ 1 * m :=
      mul_le_mul_of_nonneg_right h12 (Nat.cast_nonneg m)
    calc r1 * (m : ℚ) + r2 * m = (r1 + r2) * m := by ring
    _ ≤ 1 * m := this
    _ = (m : ℚ) := one_mul _
  have hfin : ⌊r1 * (m : ℚ)⌋ + ⌊r2 * (m : ℚ)⌋ ≤ (m : ℤ) := by
    calc ⌊r1 * (m : ℚ)⌋ + ⌊r2 * (m : ℚ)⌋ ≤ ⌊r1 * (m : ℚ) + r2 * (m : ℚ)⌋ := hsum
    _ ≤ ⌊(m : ℚ)⌋ := Int.floor_le_floor hle
    _ = (m : ℤ) := Int.floor_natCast m
  unfold pyIntNat
  omega

/-! ### The groupby keys and the group decomposition -/

theorem insertSorted_perm (x : Value) (l : List Value) :
    (insertSorted x l).Perm (x :: l) := by
  induction l with
  | nil => simp [insertSorted]
  | cons y ys ih =>
    simp only [insertSorted]
    by_cases h : vleBool x y = true
    · rw [if_pos h]
    · rw [if_neg h]
      exact (ih.cons y).trans (List.Perm.swap x y ys)

theorem sortKeys_perm (l : List Value) : (sortKeys l).Perm l := by
  induction l with
  | nil => simp [sortKeys]
  | cons x xs ih =>
    have : sortKeys (x :: xs) = insertSorted x (sortKeys xs) := rfl
    rw [this]
    exact (insertSorted_perm x (sortKeys xs)).trans (ih.cons x)

theorem labelKeys_nodup (df : DataFrame) (ci : Nat) : (labelKeys df ci).Nodup :=
  ((sortKeys_perm _).nodup_iff).2 (List.nodup_dedup _)

theorem mem_labelKeys {df : DataFrame} {ci : Nat} {k : Value} :
    k ∈ labelKeys df ci ↔ ∃ r ∈ df.rows, rowLabel ci r = k := by
  unfold labelKeys
  rw [(sortKeys_perm _).mem_iff, List.mem_dedup, List.mem_map]

theorem labelKeys_eq_nil_iff {df : DataFrame} {ci : Nat} :
    labelKeys df ci = [] ↔ df.rows = [] := by
  constructor
  · intro h
    cases hr : df.rows with
    | nil => rfl
    | cons r t =>
      have : rowLabel ci r ∈ labelKeys df ci :=
        mem_labelKeys.2 ⟨r, by simp [hr], rfl⟩
      rw [h] at this
      simp at this
  · intro h
    unfold labelKeys
    rw [h]
    rfl

theorem pdConcatRows_cons (a : List PRow) (l : List (List PRow)) :
    pdConcatRows (a :: l) = a ++ pdConcatRows l := rfl

theorem concat_filter_keys_perm (ci : Nat) :
    ∀ (keys : List Value) (rows : List PRow), keys.Nodup →
      (∀ r ∈ rows, rowLabel ci r ∈ keys) →
      (pdConcatRows (keys.map
        (fun k => rows.filter (fun r => decide (rowLabel ci r = k))))).Perm rows := by
  intro keys
  induction keys with
  | nil =>
    intro rows _ hcov
    cases rows with
    | nil => simp [pdConcatRows]
    | cons r t => exact absurd (hcov r (by simp)) (by simp)
  | cons k ks ih =>
    intro rows hnd hcov
    have hknotin : k ∉ ks := (List.nodup_cons.1 hnd).1
    have hndks : ks.Nodup := (List.nodup_cons.1 hnd).2
    simp only [List.map_cons, pdConcatRows_cons]
    have hmapeq :
        ks.map (fun k' => rows.filter (fun r => decide (rowLabel ci r = k'))) =
        ks.map (fun k' =>
          (rows.filter (fun r => !decide (rowLabel ci r = k))).filter
            (fun r => decide (rowLabel ci r = k'))) := by
      apply List.map_congr_left
      intro k' hk'
      rw [List.filter_filter]
      apply (List.filter_congr ?_).symm
      intro r _
      by_cases h : rowLabel ci r = k'
      · have hne : rowLabel ci r ≠ k := by
          intro hc
          apply hknotin
          have hkk : k = k' := hc.symm.trans h
          rw [hkk]
          exact hk'
        have hkk : ¬k' = k := fun hc => hknotin (hc ▸ hk')
        simp [h, hne, hkk]
      · simp [h]
    rw [hmapeq]
    have hcov' : ∀ r ∈ rows.filter (fun r => !decide (rowLabel ci r = k)),
        rowLabel ci r ∈ ks := by
      intro r hr
      have hmem := List.mem_of_mem_filter hr
      have hprop := List.of_mem_filter hr
      have hne : rowLabel ci r ≠ k := by simpa using hprop
      have := hcov r hmem
      simp only [List.mem_cons] at this
      exact this.resolve_left hne
    have hrec := ih (rows.filter (fun r => !decide (rowLabel ci r = k))) hndks hcov'
    exact List.Perm.trans (List.Perm.append_left _ hrec)
      (List.filter_append_perm _ rows)

theorem pdConcatRows_groupsOf_perm (df : DataFrame) (ci : Nat) :
    (pdConcatRows (groupsOf df ci)).Perm df.rows :=
  concat_filter_keys_perm ci (labelKeys df ci) df.rows (labelKeys_nodup df ci)
    (fun r hr => mem_labelKeys.2 ⟨r, hr, rfl⟩)

theorem mem_groupsOf_label {df : DataFrame} {ci : Nat} {g : List PRow}
    (hg : g ∈ groupsOf df ci) :
    ∃ k ∈ labelKeys df ci, g = df.rows.filter (fun r => decide (rowLabel ci r = k)) := by
  obtain ⟨k, hk, hgk⟩ := List.mem_map.1 hg
  exact ⟨k, hk, hgk.symm⟩

/-! ### Counting rows by label -/

theorem countVal_eq_countP (ci : Nat) (k : Value) (l : List PRow) :
    countVal ci k l = l.countP (fun r => decide (rowLabel ci r = k)) :=
  (List.countP_eq_length_filter _ _).symm

theorem countVal_append (ci : Nat) (k : Value) (a b : List PRow) :
    countVal ci k (a ++ b) = countVal ci k a + countVal ci k b := by
  simp [countVal_eq_countP, List.countP_append]

theorem countVal_perm (ci : Nat) (k : Value) {a b : List PRow} (h : a.Perm b) :
    countVal ci k a = countVal ci k b := by
  simp [countVal_eq_countP]
  exact h.countP_eq _

/-- `rowLabel` depends only on the cell values, so counting is invariant
under reindexing. -/
theorem countVal_of_map_snd_eq (ci : Nat) (k : Value) {a b : List PRow}
    (h : a.map Prod.snd = b.map Prod.snd) :
    countVal ci k a = countVal ci k b := by
  have ha : countVal ci k a =
      (a.map Prod.snd).countP (fun vs => decide ((vs.get? ci).getD Value.missing = k)) := by
    rw [countVal_eq_countP, List.countP_map]
    rfl
  have hb : countVal ci k b =
      (b.map Prod.snd).countP (fun vs => decide ((vs.get? ci).getD Value.missing = k)) := by
    rw [countVal_eq_countP, List.countP_map]
    rfl
  rw [ha, hb, h]

theorem resetIndex_map_snd (l : List PRow) :
    (resetIndex l).map Prod.snd = l.map Prod.snd := by
  unfold resetIndex
  exact List.enum_map_snd _

theorem countVal_resetIndex (ci : Nat) (k : Value) (l : List PRow) :
    countVal ci k (resetIndex l) = countVal ci k l :=
  countVal_of_map_snd_eq ci k (resetIndex_map_snd l)

theorem countVal_sampleFrac1 (ci : Nat) (k : Value) (seed : Nat) (l : List PRow) :
    countVal ci k (sampleFrac1 seed l) = countVal ci k l :=
  countVal_perm ci k (shuffle_fst_perm (mkRng seed) l)

theorem countVal_eq_length {ci : Nat} {k : Value} {l : List PRow}
    (h : ∀ r ∈ l, rowLabel ci r = k) : countVal ci k l = l.length := by
  unfold countVal
  rw [List.filter_eq_self.2 (fun r hr => by simp [h r hr])]

theorem countVal_eq_zero {ci : Nat} {k : Value} {l : List PRow}
    (h : ∀ r ∈ l, rowLabel ci r ≠ k) : countVal ci k l = 0 := by
  unfold countVal
  simp only [List.length_eq_zero]
  exact List.filter_eq_nil_iff.2 (fun r hr => by simp [h r hr])

/-! ### Structure of the per-group loop `splitGroups` -/

theorem splitGroups_nil (ra : ℚ × ℚ × ℚ) (rng : Rng) :
    splitGroups ra rng [] = ([], rng) := rfl

theorem splitGroups_cons (ra : ℚ × ℚ × ℚ) (rng : Rng) (g : List PRow)
    (gs : List (List PRow)) :
    splitGroups ra rng (g :: gs) =
      (((pick g (((shuffle rng (List.range g.length)).1).take (pyIntNat (ra.1 * g.length))),
         pick g ((((shuffle rng (List.range g.length)).1).drop (pyIntNat (ra.1 * g.length))).take
           (pyIntNat (ra.2.1 * g.length))),
         pick g (((shuffle rng (List.range g.length)).1).drop
           (pyIntNat (ra.1 * g.length) + pyIntNat (ra.2.1 * g.length)))) ::
        (splitGroups ra (shuffle rng (List.range g.length)).2 gs).1),
       (splitGroups ra (shuffle rng (List.range g.length)).2 gs).2) := rfl

theorem splitGroups_length (ra : ℚ × ℚ × ℚ) :
    ∀ (rng : Rng) (gs : List (List PRow)),
      (splitGroups ra rng gs).1.length = gs.length := by
  intro rng gs
  induction gs generalizing rng with
  | nil => rfl
  | cons g gs ih => rw [splitGroups_cons]; simp [ih]

/-- Each group's three slices together are a permutation of the group. -/
theorem slices_perm_of_group (g : List PRow) (rng : Rng) (a b : Nat) :
    (pick g (((shuffle rng (List.range g.length)).1).take a) ++
     (pick g ((((shuffle rng (List.range g.length)).1).drop a).take b) ++
      pick g (((shuffle rng (List.range g.length)).1).drop (a + b)))).Perm g := by
  set idx := (shuffle rng (List.range g.length)).1 with hidx
  have hdecomp : idx.take a ++ ((idx.drop a).take b ++ idx.drop (a + b)) = idx := by
    have h1 : idx.drop (a + b) = (idx.drop a).drop b := by
      rw [List.drop_drop]
    rw [h1, List.take_append_drop, List.take_append_drop]
  have hperm : idx.Perm (List.range g.length) := shuffle_fst_perm rng (List.range g.length)
  have hpg := pick_perm g hperm
  rw [pick_range] at hpg
  have heq : pick g (idx.take a) ++ (pick g ((idx.drop a).take b) ++ pick g (idx.drop (a + b)))
      = pick g idx := by
    rw [← pick_append, ← pick_append, hdecomp]
  rw [heq]
  exact hpg

theorem append_perm_rearrange (p1 p2 p3 A B C : List PRow) :
    ((p1 ++ A) ++ ((p2 ++ B) ++ (p3 ++ C))).Perm
      ((p1 ++ (p2 ++ p3)) ++ (A ++ (B ++ C))) := by
  rw [← Multiset.coe_eq_coe]
  simp only [← Multiset.coe_add]
  abel

/-- All three concatenated partitions together are a permutation of the
concatenated groups (no row lost or duplicated by the loop). -/
theorem splitGroups_concat_perm (ra : ℚ × ℚ × ℚ) :
    ∀ (rng : Rng) (gs : List (List PRow)),
      (pdConcatRows (((splitGroups ra rng gs).1).map (·.1)) ++
       (pdConcatRows (((splitGroups ra rng gs).1).map (·.2.1)) ++
        pdConcatRows (((splitGroups ra rng gs).1).map (·.2.2)))).Perm
      (pdConcatRows gs) := by
  intro rng gs
  induction gs generalizing rng with
  | nil => simp [splitGroups_nil, pdConcatRows]
  | cons g gs ih =>
    rw [splitGroups_cons]
    simp only [List.map_cons, pdConcatRows_cons]
    have hpart := slices_perm_of_group g rng (pyIntNat (ra.1 * g.length))
      (pyIntNat (ra.2.1 * g.length))
    have hrec := ih (shuffle rng (List.range g.length)).2
    exact (append_perm_rearrange _ _ _ _ _ _).trans (hpart.append hrec)

/-- Slice lengths for one group: `n_train`, `n_val`, and the remainder,
provided the first two cuts fit inside the group. -/
theorem group_slice_lengths (g : List PRow) (rng : Rng) {a b : Nat}
    (hab : a + b ≤ g.length) :
    (pick g (((shuffle rng (List.range g.length)).1).take a)).length = a ∧
    (pick g ((((shuffle rng (List.range g.length)).1).drop a).take b)).length = b ∧
    (pick g (((shuffle rng (List.range g.length)).1).drop (a + b))).length =
      g.length - (a + b) := by
  set idx := (shuffle rng (List.range g.length)).1 with hidx
  have hlen : idx.length = g.length := by
    rw [hidx, shuffle_fst_length, List.length_range]
  have hmem : ∀ j ∈ idx, j < g.length := by
    intro j hj
    have := (shuffle_fst_perm rng (List.range g.length)).mem_iff.1 hj
    exact List.mem_range.1 this
  refine ⟨?_, ?_, ?_⟩
  · rw [pick_length (fun j hj => hmem j (List.mem_of_mem_take hj))]
    rw [List.length_take, hlen]
    omega
  · rw [pick_length (fun j hj => hmem j (List.mem_of_mem_drop (List.mem_of_mem_take hj)))]
    rw [List.length_take, List.length_drop, hlen]
    omega
  · rw [pick_length (fun j hj => hmem j (List.mem_of_mem_drop hj))]
    rw [List.length_drop, hlen]

theorem pyIntNat_zero : pyIntNat 0 = 0 := by
  unfold pyIntNat
  rw [Int.floor_zero]
  rfl

/-- Per-label counts of the three concatenated partitions: a label `k`
appearing in the key list contributes exactly `int(ratios[0]*g)` rows to
train, `int(ratios[1]*g)` to val, and the remaining `g - both` to test,
where `g` is the size of its group; labels outside the keys contribute
nothing. -/
theorem countVal_splitGroups (ci : Nat) (k : Value) (ra : ℚ × ℚ × ℚ)
    (h1 : 0 ≤ ra.1) (h2 : 0 ≤ ra.2.1) (h12 : ra.1 + ra.2.1 ≤ 1) :
    ∀ (keys : List Value) (rows : List PRow) (rng : Rng), keys.Nodup →
      (countVal ci k (pdConcatRows (((splitGroups ra rng (keys.map
          (fun k' => rows.filter (fun r => decide (rowLabel ci r = k'))))).1).map (·.1))) =
        if k ∈ keys then
          pyIntNat (ra.1 * (rows.filter (fun r => decide (rowLabel ci r = k))).length)
        else 0) ∧
      (countVal ci k (pdConcatRows (((splitGroups ra rng (keys.map
          (fun k' => rows.filter (fun r => decide (rowLabel ci r = k'))))).1).map (·.2.1))) =
        if k ∈ keys then
          pyIntNat (ra.2.1 * (rows.filter (fun r => decide (rowLabel ci r = k))).length)
        else 0) ∧
      (countVal ci k (pdConcatRows (((splitGroups ra rng (keys.map
          (fun k' => rows.filter (fun r => decide (rowLabel ci r = k'))))).1).map (·.2.2))) =
        if k ∈ keys then
          (rows.filter (fun r => decide (rowLabel ci r = k))).length -
            (pyIntNat (ra.1 * (rows.filter (fun r => decide (rowLabel ci r = k))).length) +
             pyIntNat (ra.2.1 * (rows.filter (fun r => decide (rowLabel ci r = k))).length))
        else 0) := by
  intro keys
  induction keys with
  | nil =>
    intro rows rng _
    simp [splitGroups_nil, pdConcatRows, countVal]
  | cons k' ks ih =>
    intro rows rng hnd
    have hknotin : k' ∉ ks := (List.nodup_cons.1 hnd).1
    have hndks : ks.Nodup := (List.nodup_cons.1 hnd).2
    simp only [List.map_cons]
    rw [splitGroups_cons]
    simp only [List.map_cons, pdConcatRows_cons]
    set g := rows.filter (fun r => decide (rowLabel ci r = k')) with hg
    have hglab : ∀ r ∈ g, rowLabel ci r = k' := by
      intro r hr
      have := List.of_mem_filter hr
      simpa using this
    have hab : pyIntNat (ra.1 * g.length) + pyIntNat (ra.2.1 * g.length) ≤ g.length :=
      pyIntNat_add_le h1 h2 h12 g.length
    obtain ⟨hL1, hL2, hL3⟩ := group_slice_lengths g rng hab
    obtain ⟨ihT, ihV, ihE⟩ := ih rows (shuffle rng (List.range g.length)).2 hndks
    by_cases hk : k = k'
    · subst hk
      have hnotks : k ∉ ks := hknotin
      have hmem : k ∈ k :: ks := by simp
      refine ⟨?_, ?_, ?_⟩
      · rw [countVal_append, ihT, if_neg hnotks,
          countVal_eq_length (fun r hr => hglab r (pick_mem hr)), hL1, ← hg,
          Nat.add_zero, if_pos hmem]
      · rw [countVal_append, ihV, if_neg hnotks,
          countVal_eq_length (fun r hr => hglab r (pick_mem hr)), hL2, ← hg,
          Nat.add_zero, if_pos hmem]
      · rw [countVal_append, ihE, if_neg hnotks,
          countVal_eq_length (fun r hr => hglab r (pick_mem hr)), hL3, ← hg,
          Nat.add_zero, if_pos hmem]
    · have hzero1 : ∀ (js : List Nat),
          countVal ci k (pick g js) = 0 :=
        fun js => countVal_eq_zero
          (fun r hr => by rw [hglab r (pick_mem hr)]; exact fun hh => hk hh.symm)
      by_cases hks : k ∈ ks
      · have hmem : k ∈ k' :: ks := List.mem_cons_of_mem _ hks
        refine ⟨?_, ?_, ?_⟩
        · rw [countVal_append, ihT, hzero1, Nat.zero_add, if_pos hks, if_pos hmem]
        · rw [countVal_append, ihV, hzero1, Nat.zero_add, if_pos hks, if_pos hmem]
        · rw [countVal_append, ihE, hzero1, Nat.zero_add, if_pos hks, if_pos hmem]
      · have hnmem : k ∉ k' :: ks := fun hc => (List.mem_cons.1 hc).elim hk hks
        refine ⟨?_, ?_, ?_⟩
        · rw [countVal_append, ihT, hzero1, Nat.zero_add, if_neg hks, if_neg hnmem]
        · rw [countVal_append, ihV, hzero1, Nat.zero_add, if_neg hks, if_neg hnmem]
        · rw [countVal_append, ihE, hzero1, Nat.zero_add, if_neg hks, if_neg hnmem]

/-! ### How the single shared generator is threaded through the groups -/

theorem splitGroups_snd_eq (ra : ℚ × ℚ × ℚ) :
    ∀ (rng : Rng) (gs : List (List PRow)),
      (splitGroups ra rng gs).2 = rngAfterGroups rng (gs.map List.length) := by
  intro rng gs
  induction gs generalizing rng with
  | nil => rfl
  | cons g gs ih =>
    rw [splitGroups_cons]
    simp only [List.map_cons, rngAfterGroups]
    exact ih _

theorem splitGroups_append (ra : ℚ × ℚ × ℚ) :
    ∀ (gs1 gs2 : List (List PRow)) (rng : Rng),
      (splitGroups ra rng (gs1 ++ gs2)).1 =
        (splitGroups ra rng gs1).1 ++
          (splitGroups ra (rngAfterGroups rng (gs1.map List.length)) gs2).1 := by
  intro gs1
  induction gs1 with
  | nil => intro gs2 rng; rfl
  | cons g gs ih =>
    intro gs2 rng
    rw [List.cons_append, splitGroups_cons, splitGroups_cons]
    simp only [List.map_cons, rngAfterGroups, List.cons_append]
    rw [ih]

/-! ### Reaching the `ok` and error outcomes of `_stratified_split` -/

theorem partsOf_length (df : DataFrame) (ci : Nat) (ra : ℚ × ℚ × ℚ) (seed : Nat) :
    (partsOf df ci ra seed).length = (labelKeys df ci).length := by
  unfold partsOf
  rw [splitGroups_length]
  unfold groupsOf
  rw [List.length_map]

theorem partsOf_eq_nil_iff {df : DataFrame} {ci : Nat} {ra : ℚ × ℚ × ℚ} {seed : Nat} :
    partsOf df ci ra seed = [] ↔ df.rows = [] := by
  rw [← List.length_eq_zero, partsOf_length, List.length_eq_zero, labelKeys_eq_nil_iff]

theorem stratified_split_ok {df : DataFrame} {c : String} {seed : Nat}
    {ra : ℚ × ℚ × ℚ} {ci : Nat}
    (hra : |ra.1 + ra.2.1 + ra.2.2 - 1| < 1 / 1000000)
    (hci : df.cols.findIdx? (fun x => decide (x = c)) = some ci)
    (hne : df.rows ≠ []) :
    stratified_split df c seed ra =
      .ok (trainDF df ci ra seed, valDF df ci ra seed, testDF df ci ra seed) := by
  unfold stratified_split
  rw [if_pos hra, hci]
  show concatStage df ci ra seed = _
  unfold concatStage
  cases hp : partsOf df ci ra seed with
  | nil => exact absurd (partsOf_eq_nil_iff.1 hp) hne
  | cons p ps => rfl

theorem stratified_split_assertionError {df : DataFrame} {c : String} {seed : Nat}
    {ra : ℚ × ℚ × ℚ}
    (hra : ¬ |ra.1 + ra.2.1 + ra.2.2 - 1| < 1 / 1000000) :
    stratified_split df c seed ra = .error .assertionError := by
  unfold stratified_split
  rw [if_neg hra]

theorem stratified_split_keyError {df : DataFrame} {c : String} {seed : Nat}
    {ra : ℚ × ℚ × ℚ}
    (hra : |ra.1 + ra.2.1 + ra.2.2 - 1| < 1 / 1000000)
    (hci : df.cols.findIdx? (fun x => decide (x = c)) = none) :
    stratified_split df c seed ra = .error .keyError := by
  unfold stratified_split
  rw [if_pos hra, hci]

theorem stratified_split_valueError {df : DataFrame} {c : String} {seed : Nat}
    {ra : ℚ × ℚ × ℚ} {ci : Nat}
    (hra : |ra.1 + ra.2.1 + ra.2.2 - 1| < 1 / 1000000)
    (hci : df.cols.findIdx? (fun x => decide (x = c)) = some ci)
    (hnil : df.rows = []) :
    stratified_split df c seed ra = .error .valueError := by
  unfold stratified_split
  rw [if_pos hra, hci]
  show concatStage df ci ra seed = _
  unfold concatStage
  cases hp : partsOf df ci ra seed with
  | nil => rfl
  | cons p ps =>
    exfalso
    have : partsOf df ci ra seed = [] := partsOf_eq_nil_iff.2 hnil
    rw [hp] at this
    simp at this

theorem findIdx?_eq_none_iff_not_mem {c : String} {cols : List String} :
    cols.findIdx? (fun x => decide (x = c)) = none ↔ c ∉ cols := by
  rw [List.findIdx?_eq_none_iff]
  constructor
  · intro h hc
    have := h c hc
    simp at this
  · intro h x hx
    by_cases hxc : x = c
    · exact absurd (hxc ▸ hx) h
    · simp [hxc]

/-! ### The three output tables: rows, lengths and label counts -/

theorem trainDF_rows (df : DataFrame) (ci : Nat) (ra : ℚ × ℚ × ℚ) (seed : Nat) :
    (trainDF df ci ra seed).rows =
      resetIndex (sampleFrac1 seed (pdConcatRows ((partsOf df ci ra seed).map (·.1)))) := rfl

theorem valDF_rows (df : DataFrame) (ci : Nat) (ra : ℚ × ℚ × ℚ) (seed : Nat) :
    (valDF df ci ra seed).rows =
      resetIndex (sampleFrac1 seed (pdConcatRows ((partsOf df ci ra seed).map (·.2.1)))) := rfl

theorem testDF_rows (df : DataFrame) (ci : Nat) (ra : ℚ × ℚ × ℚ) (seed : Nat) :
    (testDF df ci ra seed).rows =
      resetIndex (sampleFrac1 seed (pdConcatRows ((partsOf df ci ra seed).map (·.2.2)))) := rfl

theorem resetIndex_length (l : List PRow) : (resetIndex l).length = l.length := by
  unfold resetIndex
  rw [List.enum_length, List.length_map]

theorem sampleFrac1_length (seed : Nat) (l : List PRow) :
    (sampleFrac1 seed l).length = l.length :=
  (shuffle_fst_perm (mkRng seed) l).length_eq

/-- The concatenated per-group train slices, as cut by the loop. -/
theorem partsOf_as_splitGroups (df : DataFrame) (ci : Nat) (ra : ℚ × ℚ × ℚ) (seed : Nat) :
    partsOf df ci ra seed =
      (splitGroups ra (mkRng seed) ((labelKeys df ci).map
        (fun k => df.rows.filter (fun r => decide (rowLabel ci r = k))))).1 := rfl

theorem countVal_trainDF (df : DataFrame) (ci : Nat) {ra : ℚ × ℚ × ℚ} (seed : Nat)
    (k : Value) (h1 : 0 ≤ ra.1) (h2 : 0 ≤ ra.2.1) (h12 : ra.1 + ra.2.1 ≤ 1) :
    countVal ci k (trainDF df ci ra seed).rows = pyIntNat (ra.1 * groupSize df ci k) := by
  rw [trainDF_rows, countVal_resetIndex, countVal_sampleFrac1, partsOf_as_splitGroups]
  rw [(countVal_splitGroups ci k ra h1 h2 h12 (labelKeys df ci) df.rows (mkRng seed)
    (labelKeys_nodup df ci)).1]
  by_cases hk : k ∈ labelKeys df ci
  · rw [if_pos hk]
    rfl
  · rw [if_neg hk]
    have hzero : groupSize df ci k = 0 :=
      countVal_eq_zero (fun r hr hl => hk (mem_labelKeys.2 ⟨r, hr, hl⟩))
    rw [hzero, Nat.cast_zero, mul_zero, pyIntNat_zero]

theorem countVal_valDF (df : DataFrame) (ci : Nat) {ra : ℚ × ℚ × ℚ} (seed : Nat)
    (k : Value) (h1 : 0 ≤ ra.1) (h2 : 0 ≤ ra.2.1) (h12 : ra.1 + ra.2.1 ≤ 1) :
    countVal ci k (valDF df ci ra seed).rows = pyIntNat (ra.2.1 * groupSize df ci k) := by
  rw [valDF_rows, countVal_resetIndex, countVal_sampleFrac1, partsOf_as_splitGroups]
  rw [(countVal_splitGroups ci k ra h1 h2 h12 (labelKeys df ci) df.rows (mkRng seed)
    (labelKeys_nodup df ci)).2.1]
  by_cases hk : k ∈ labelKeys df ci
  · rw [if_pos hk]
    rfl
  · rw [if_neg hk]
    have hzero : groupSize df ci k = 0 :=
      countVal_eq_zero (fun r hr hl => hk (mem_labelKeys.2 ⟨r, hr, hl⟩))
    rw [hzero, Nat.cast_zero, mul_zero, pyIntNat_zero]

theorem countVal_testDF (df : DataFrame) (ci : Nat) {ra : ℚ × ℚ × ℚ} (seed : Nat)
    (k : Value) (h1 : 0 ≤ ra.1) (h2 : 0 ≤ ra.2.1) (h12 : ra.1 + ra.2.1 ≤ 1) :
    countVal ci k (testDF df ci ra seed).rows =
      groupSize df ci k -
        (pyIntNat (ra.1 * groupSize df ci k) + pyIntNat (ra.2.1 * groupSize df ci k)) := by
  rw [testDF_rows, countVal_resetIndex, countVal_sampleFrac1, partsOf_as_splitGroups]
  rw [(countVal_splitGroups ci k ra h1 h2 h12 (labelKeys df ci) df.rows (mkRng seed)
    (labelKeys_nodup df ci)).2.2]
  by_cases hk : k ∈ labelKeys df ci
  · rw [if_pos hk]
    rfl
  · rw [if_neg hk]
    have hzero : groupSize df ci k = 0 :=
      countVal_eq_zero (fun r hr hl => hk (mem_labelKeys.2 ⟨r, hr, hl⟩))
    rw [hzero, Nat.cast_zero, mul_zero, pyIntNat_zero]
    omega

/-- The value rows of the three stratified outputs together are a
permutation of the input's value rows: no row is lost, duplicated, or
invented. -/
theorem stratified_outputs_perm (df : DataFrame) (ci : Nat) (ra : ℚ × ℚ × ℚ) (seed : Nat) :
    (((trainDF df ci ra seed).rows.map Prod.snd) ++
     (((valDF df ci ra seed).rows.map Prod.snd) ++
      ((testDF df ci ra seed).rows.map Prod.snd))).Perm (df.rows.map Prod.snd) := by
  have ht : ((trainDF df ci ra seed).rows.map Prod.snd).Perm
      ((pdConcatRows ((partsOf df ci ra seed).map (·.1))).map Prod.snd) := by
    rw [trainDF_rows, resetIndex_map_snd]
    exact (shuffle_fst_perm _ _).map Prod.snd
  have hv : ((valDF df ci ra seed).rows.map Prod.snd).Perm
      ((pdConcatRows ((partsOf df ci ra seed).map (·.2.1))).map Prod.snd) := by
    rw [valDF_rows, resetIndex_map_snd]
    exact (shuffle_fst_perm _ _).map Prod.snd
  have he : ((testDF df ci ra seed).rows.map Prod.snd).Perm
      ((pdConcatRows ((partsOf df ci ra seed).map (·.2.2))).map Prod.snd) := by
    rw [testDF_rows, resetIndex_map_snd]
    exact (shuffle_fst_perm _ _).map Prod.snd
  have hbig : ((pdConcatRows ((partsOf df ci ra seed).map (·.1)) ++
      (pdConcatRows ((partsOf df ci ra seed).map (·.2.1)) ++
       pdConcatRows ((partsOf df ci ra seed).map (·.2.2))))).Perm df.rows := by
    unfold partsOf
    exact (splitGroups_concat_perm ra (mkRng seed) (groupsOf df ci)).trans
      (pdConcatRows_groupsOf_perm df ci)
  have hmapped := hbig.map Prod.snd
  rw [List.map_append, List.map_append] at hmapped
  exact ((ht.append (hv.append he))).trans hmapped

/-- Sizes of the three stratified outputs sum to the input size. -/
theorem stratified_sizes (df : DataFrame) (ci : Nat) (ra : ℚ × ℚ × ℚ) (seed : Nat) :
    (trainDF df ci ra seed).len + (valDF df ci ra seed).len +
      (testDF df ci ra seed).len = df.len := by
  have h := (stratified_outputs_perm df ci ra seed).length_eq
  simp only [List.length_append, List.length_map] at h
  unfold DataFrame.len
  omega

/-! ### The uniform split: cut points and partition structure -/

theorem pyIntNat_35 (n : Nat) : pyIntNat ((3 / 5 : ℚ) * n) = 3 * n / 5 := by
  have h := pyIntNat_div_nat 3 5 n
  norm_num at h
  exact h

theorem pyIntNat_45 (n : Nat) : pyIntNat ((4 / 5 : ℚ) * n) = 4 * n / 5 := by
  have h := pyIntNat_div_nat 4 5 n
  norm_num at h
  exact h

theorem pyIntNat_15 (n : Nat) : pyIntNat ((1 / 5 : ℚ) * n) = n / 5 := by
  have h := pyIntNat_div_nat 1 5 n
  norm_num at h
  exact h

/-- The uniform split written with the cut points evaluated to integer
arithmetic: `int(0.6*n) = 3n/5`, `int(0.8*n) = 4n/5`. -/
theorem split_dataframe_std (df : DataFrame) (seed : Nat) :
    split_dataframe df seed =
      (⟨df.cols, pick df.rows
          (((shuffle (mkRng seed) (List.range df.len)).1).take (3 * df.len / 5))⟩,
       ⟨df.cols, pick df.rows
          ((((shuffle (mkRng seed) (List.range df.len)).1).drop (3 * df.len / 5)).take
            (4 * df.len / 5 - 3 * df.len / 5))⟩,
       ⟨df.cols, pick df.rows
          (((shuffle (mkRng seed) (List.range df.len)).1).drop (4 * df.len / 5))⟩) := by
  simp only [split_dataframe, pyIntNat_35, pyIntNat_45]

theorem uniform_cut_le (n : Nat) : 3 * n / 5 ≤ 4 * n / 5 ∧ 4 * n / 5 ≤ n := by
  constructor
  · exact Nat.div_le_div_right (by omega)
  · calc 4 * n / 5 ≤ 5 * n / 5 := Nat.div_le_div_right (by omega)
    _ = n := by omega

/-- Sizes of the three uniform slices: `3n/5`, `4n/5 - 3n/5`, `n - 4n/5`
(all rounding loss accrues to the test slice). -/
theorem split_dataframe_lengths (df : DataFrame) (seed : Nat) :
    (split_dataframe df seed).1.len = 3 * df.len / 5 ∧
    (split_dataframe df seed).2.1.len = 4 * df.len / 5 - 3 * df.len / 5 ∧
    (split_dataframe df seed).2.2.len = df.len - 4 * df.len / 5 := by
  obtain ⟨h12, h2n⟩ := uniform_cut_le df.len
  have hlens := group_slice_lengths df.rows (mkRng seed)
    (a := 3 * df.len / 5) (b := 4 * df.len / 5 - 3 * df.len / 5) (by
      show 3 * df.len / 5 + (4 * df.len / 5 - 3 * df.len / 5) ≤ df.rows.length
      have : df.rows.length = df.len := rfl
      omega)
  have hab : 3 * df.len / 5 + (4 * df.len / 5 - 3 * df.len / 5) = 4 * df.len / 5 := by
    omega
  rw [hab] at hlens
  obtain ⟨hl1, hl2, hl3⟩ := hlens
  have hgl : df.rows.length = df.len := rfl
  rw [split_dataframe_std]
  refine ⟨?_, ?_, ?_⟩
  · show (pick df.rows
        (((shuffle (mkRng seed) (List.range df.len)).1).take (3 * df.len / 5))).length = _
    rw [← hgl] at *
    exact hl1
  · show (pick df.rows
        ((((shuffle (mkRng seed) (List.range df.len)).1).drop (3 * df.len / 5)).take
          (4 * df.len / 5 - 3 * df.len / 5))).length = _
    rw [← hgl] at *
    exact hl2
  · show (pick df.rows
        (((shuffle (mkRng seed) (List.range df.len)).1).drop (4 * df.len / 5))).length = _
    rw [← hgl] at *
    exact hl3

/-- The three uniform slices together are a permutation of the input rows,
index labels included. -/
theorem split_dataframe_partition (df : DataFrame) (seed : Nat) :
    ((split_dataframe df seed).1.rows ++
     ((split_dataframe df seed).2.1.rows ++
      (split_dataframe df seed).2.2.rows)).Perm df.rows := by
  obtain ⟨h12, h2n⟩ := uniform_cut_le df.len
  have hperm := slices_perm_of_group df.rows (mkRng seed)
    (3 * df.len / 5) (4 * df.len / 5 - 3 * df.len / 5)
  have hab : 3 * df.len / 5 + (4 * df.len / 5 - 3 * df.len / 5) = 4 * df.len / 5 := by
    omega
  rw [hab] at hperm
  have hgl : df.rows.length = df.len := rfl
  rw [split_dataframe_std]
  show (pick df.rows (((shuffle (mkRng seed) (List.range df.len)).1).take (3 * df.len / 5)) ++
    (pick df.rows ((((shuffle (mkRng seed) (List.range df.len)).1).drop (3 * df.len / 5)).take
        (4 * df.len / 5 - 3 * df.len / 5)) ++
     pick df.rows (((shuffle (mkRng seed) (List.range df.len)).1).drop
        (4 * df.len / 5)))).Perm df.rows
  rw [← hgl] at *
  exact hperm

/-! ### Evaluation form at the hard-coded ratios `(0.6, 0.2, 0.2)`
(the rational cut points computed down to integer arithmetic, so that the
split can be evaluated on concrete tables by the kernel) -/

theorem splitGroupsN_cons (rng : Rng) (g : List PRow) (gs : List (List PRow)) :
    splitGroupsN rng (g :: gs) =
      (((pick g (((shuffle rng (List.range g.length)).1).take (3 * g.length / 5)),
         pick g ((((shuffle rng (List.range g.length)).1).drop (3 * g.length / 5)).take
           (g.length / 5)),
         pick g (((shuffle rng (List.range g.length)).1).drop
           (3 * g.length / 5 + g.length / 5))) ::
        (splitGroupsN (shuffle rng (List.range g.length)).2 gs).1),
       (splitGroupsN (shuffle rng (List.range g.length)).2 gs).2) := rfl

theorem splitGroups_std : ∀ (rng : Rng) (gs : List (List PRow)),
    splitGroups (3 / 5, 1 / 5, 1 / 5) rng gs = splitGroupsN rng gs := by
  intro rng gs
  induction gs generalizing rng with
  | nil => rfl
  | cons g gs ih =>
    rw [splitGroups_cons, splitGroupsN_cons, ih]
    have h1 : pyIntNat ((3 / 5, 1 / 5, 1 / 5).1 * (g.length : ℚ)) = 3 * g.length / 5 :=
      pyIntNat_35 g.length
    have h2 : pyIntNat ((3 / 5, 1 / 5, 1 / 5).2.1 * (g.length : ℚ)) = g.length / 5 :=
      pyIntNat_15 g.length
    rw [h1, h2]

theorem partsOf_std (df : DataFrame) (ci : Nat) (seed : Nat) :
    partsOf df ci (3 / 5, 1 / 5, 1 / 5) seed =
      (splitGroupsN (mkRng seed) (groupsOf df ci)).1 := by
  unfold partsOf
  rw [splitGroups_std]

theorem trainDF_std (df : DataFrame) (ci : Nat) (seed : Nat) :
    trainDF df ci (3 / 5, 1 / 5, 1 / 5) seed =
      ⟨df.cols, resetIndex (sampleFrac1 seed
        (pdConcatRows (((splitGroupsN (mkRng seed) (groupsOf df ci)).1).map (·.1))))⟩ := by
  unfold trainDF
  rw [partsOf_std]

theorem valDF_std (df : DataFrame) (ci : Nat) (seed : Nat) :
    valDF df ci (3 / 5, 1 / 5, 1 / 5) seed =
      ⟨df.cols, resetIndex (sampleFrac1 seed
        (pdConcatRows (((splitGroupsN (mkRng seed) (groupsOf df ci)).1).map (·.2.1))))⟩ := by
  unfold valDF
  rw [partsOf_std]

theorem testDF_std (df : DataFrame) (ci : Nat) (seed : Nat) :
    testDF df ci (3 / 5, 1 / 5, 1 / 5) seed =
      ⟨df.cols, resetIndex (sampleFrac1 seed
        (pdConcatRows (((splitGroupsN (mkRng seed) (groupsOf df ci)).1).map (·.2.2))))⟩ := by
  unfold testDF
  rw [partsOf_std]

theorem ratios_std_check : |(3 / 5 : ℚ) + 1 / 5 + 1 / 5 - 1| < 1 / 1000000 := by
  norm_num

theorem resetIndex_map_fst (l : List PRow) :
    (resetIndex l).map Prod.fst = List.range (resetIndex l).length := by
  unfold resetIndex
  rw [List.enum_map_fst, List.enum_length]

/-- Inversion: a successful stratified split can only have produced the
three assembled tables for the found column position. -/
theorem stratified_split_ok_inv {df : DataFrame} {c : String} {seed : Nat}
    {ra : ℚ × ℚ × ℚ} {t v te : DataFrame}
    (h : stratified_split df c seed ra = .ok (t, v, te)) :
    ∃ ci, df.cols.findIdx? (fun x => decide (x = c)) = some ci ∧
      t = trainDF df ci ra seed ∧ v = valDF df ci ra seed ∧
      te = testDF df ci ra seed := by
  unfold stratified_split at h
  by_cases hra : |ra.1 + ra.2.1 + ra.2.2 - 1| < 1 / 1000000
  · rw [if_pos hra] at h
    cases hci : df.cols.findIdx? (fun x => decide (x = c)) with
    | none =>
      rw [hci] at h
      exact absurd h (by simp)
    | some ci =>
      rw [hci] at h
      have h' : concatStage df ci ra seed = .ok (t, v, te) := h
      unfold concatStage at h'
      cases hp : partsOf df ci ra seed with
      | nil =>
        rw [hp] at h'
        exact absurd h' (by simp)
      | cons p ps =>
        rw [hp] at h'
        simp only [Except.ok.injEq, Prod.mk.injEq] at h'
        exact ⟨ci, rfl, h'.1.symm, h'.2.1.symm, h'.2.2.symm⟩
  · rw [if_neg hra] at h
    exact absurd h (by simp)

/-! ### Frame: the input table after a split call

Every pandas operation the source applies to the input frame (`len`,
`groupby`, `iloc`, `pd.concat`, `.sample`, `.reset_index`) returns a fresh
object and leaves its receiver untouched; the only in-place mutation in
either function is `rng.shuffle(indices)` on the locally created position
array.  The state-threaded variants below make this explicit: each step
passes the input table along unchanged, and the variant returns both the
result and the caller's view of the input table after the call. -/

theorem split_dataframe_st_frame (df : DataFrame) (seed : Nat) :
    (split_dataframe_st df seed).2 = df ∧
    (split_dataframe_st df seed).1 = split_dataframe df seed :=
  ⟨rfl, rfl⟩

theorem stratified_split_st_frame (df : DataFrame) (c : String) (seed : Nat)
    (ra : ℚ × ℚ × ℚ) :
    (stratified_split_st df c seed ra).2 = df ∧
    (stratified_split_st df c seed ra).1 = stratified_split df c seed ra := by
  unfold stratified_split_st stratified_split groupbySt concatStage partsOf
  by_cases hra : |ra.1 + ra.2.1 + ra.2.2 - 1| < 1 / 1000000
  · rw [if_pos hra, if_pos hra]
    cases hci : df.cols.findIdx? (fun x => decide (x = c)) with
    | none => exact ⟨rfl, rfl⟩
    | some ci =>
      cases hp : (splitGroups ra (mkRng seed) (groupsOf df ci)).1 with
      | nil => simp [hp]
      | cons p ps => simp [hp]
  · rw [if_neg hra, if_neg hra]
    exact ⟨rfl, rfl⟩

/-! ## The claims -/

/-- C4: calling the same split operation twice on the same input table with
the same seed and same mode yields identical Train, Validation and Test
outputs, by value and by row order: both splits are pure functions of the
table, the seed (and, for stratified mode, the label column and ratios) —
each call builds its own generator from the seed and there is no other
state. -/
theorem c4_determinism :
    ∀ (df1 df2 : DataFrame) (s1 s2 : Nat) (c : String) (ra : ℚ × ℚ × ℚ),
      df1 = df2 → s1 = s2 →
      split_dataframe df1 s1 = split_dataframe df2 s2 ∧
      stratified_split df1 c s1 ra = stratified_split df2 c s2 ra := by
  intro df1 df2 s1 s2 c ra hdf hs
  subst hdf
  subst hs
  exact ⟨rfl, rfl⟩

theorem c4_witness :
    exDF = exDF ∧ (42 : Nat) = 42 ∧
    split_dataframe exDF 42 = split_dataframe exDF 42 ∧
    stratified_split exDF "class" 42 (3 / 5, 1 / 5, 1 / 5) =
      stratified_split exDF "class" 42 (3 / 5, 1 / 5, 1 / 5) :=
  ⟨rfl, rfl, c4_determinism exDF exDF 42 42 "class" (3 / 5, 1 / 5, 1 / 5) rfl rfl⟩

/-- C9: neither split operation mutates the input table.  Every pandas
operation the source applies to the input returns a fresh object (the only
in-place update, `rng.shuffle`, acts on the locally created index array),
so in the state-threaded model the caller's table after either call is the
input itself, while the returned partitions are those of the plain model. -/
theorem c9_no_mutation :
    ∀ (df : DataFrame) (seed : Nat) (c : String) (ra : ℚ × ℚ × ℚ),
      (split_dataframe_st df seed).2 = df ∧
      (split_dataframe_st df seed).1 = split_dataframe df seed ∧
      (stratified_split_st df c seed ra).2 = df ∧
      (stratified_split_st df c seed ra).1 = stratified_split df c seed ra := by
  intro df seed c ra
  obtain ⟨h1, h2⟩ := split_dataframe_st_frame df seed
  obtain ⟨h3, h4⟩ := stratified_split_st_frame df c seed ra
  exact ⟨h1, h2, h3, h4⟩

/-- C6 counterexample: on a zero-row table the uniform split does not raise
anything — it returns three empty tables, exactly what the claim says is
avoided. -/
theorem c6_counterexample :
    split_dataframe emptyDF 42 =
      (⟨["c"], []⟩, ⟨["c"], []⟩, ⟨["c"], []⟩) := by
  rw [split_dataframe_std]
  decide

/-- C6 amended: for a table with zero rows the uniform split returns three
empty tables (no error), while the stratified split does raise — a
`ValueError` from concatenating an empty list of parts (not a dedicated
`EmptyInputError`), provided the ratios pass the assertion and the label
column exists. -/
theorem c6_amended :
    ∀ (cols : List String) (seed : Nat) (c : String) (ra : ℚ × ℚ × ℚ) (ci : Nat),
      split_dataframe ⟨cols, []⟩ seed = (⟨cols, []⟩, ⟨cols, []⟩, ⟨cols, []⟩) ∧
      (|ra.1 + ra.2.1 + ra.2.2 - 1| < 1 / 1000000 →
        (⟨cols, []⟩ : DataFrame).cols.findIdx? (fun x => decide (x = c)) = some ci →
        stratified_split ⟨cols, []⟩ c seed ra = .error .valueError) := by
  intro cols seed c ra ci
  constructor
  · have h0 : (⟨cols, []⟩ : DataFrame).len = 0 := rfl
    rw [split_dataframe_std, h0]
    simp [pick, shuffle_nil]
  · intro hra hci
    exact stratified_split_valueError hra hci rfl

theorem c6_amended_witness :
    |(3 / 5 : ℚ) + 1 / 5 + 1 / 5 - 1| < 1 / 1000000 ∧
    (emptyDF.cols.findIdx? (fun x => decide (x = "c")) = some 0) ∧
    split_dataframe ⟨["c"], []⟩ 42 = (⟨["c"], []⟩, ⟨["c"], []⟩, ⟨["c"], []⟩) ∧
    stratified_split ⟨["c"], []⟩ "c" 42 (3 / 5, 1 / 5, 1 / 5) = .error .valueError := by
  have h := c6_amended ["c"] 42 "c" (3 / 5, 1 / 5, 1 / 5) 0
  exact ⟨ratios_std_check, by decide, h.1, h.2 ratios_std_check (by decide)⟩

/-- C5 counterexample: a stratified call errors even though the ratios sum
to 1 within tolerance and the label column exists — on a zero-row table
`pd.concat([])` raises, so the stated "exactly when" equivalence is false. -/
theorem c5_counterexample :
    |(3 / 5 : ℚ) + 1 / 5 + 1 / 5 - 1| < 1 / 1000000 ∧
    "c" ∈ emptyDF.cols ∧
    stratified_split emptyDF "c" 42 (3 / 5, 1 / 5, 1 / 5) = .error .valueError := by
  refine ⟨ratios_std_check, by decide, ?_⟩
  exact @stratified_split_valueError emptyDF "c" 42 (3 / 5, 1 / 5, 1 / 5) 0
    ratios_std_check (by decide) rfl

/-- C5 amended: the uniform split takes no ratios argument and never
raises; a stratified call errors exactly when the ratios fail the 1e-6
sum assertion, the label column does not exist, or the table has zero
rows. -/
theorem c5_amended :
    (∀ (df : DataFrame) (seed : Nat), ∃ t v te,
      split_dataframe df seed = (t, v, te)) ∧
    ∀ (df : DataFrame) (c : String) (seed : Nat) (ra : ℚ × ℚ × ℚ),
      (∃ e, stratified_split df c seed ra = .error e) ↔
        (¬ |ra.1 + ra.2.1 + ra.2.2 - 1| < 1 / 1000000 ∨ c ∉ df.cols ∨ df.rows = []) := by
  constructor
  · intro df seed
    exact ⟨_, _, _, rfl⟩
  intro df c seed ra
  by_cases hra : |ra.1 + ra.2.1 + ra.2.2 - 1| < 1 / 1000000
  · cases hci : df.cols.findIdx? (fun x => decide (x = c)) with
    | none =>
      constructor
      · intro _
        exact Or.inr (Or.inl (findIdx?_eq_none_iff_not_mem.1 hci))
      · intro _
        exact ⟨.keyError, stratified_split_keyError hra hci⟩
    | some ci =>
      have hc : c ∈ df.cols := by
        by_contra hc
        have hnone := findIdx?_eq_none_iff_not_mem.2 hc
        rw [hnone] at hci
        simp at hci
      by_cases hrows : df.rows = []
      · constructor
        · intro _
          exact Or.inr (Or.inr hrows)
        · intro _
          exact ⟨.valueError, stratified_split_valueError hra hci hrows⟩
      · constructor
        · rintro ⟨e, he⟩
          rw [stratified_split_ok hra hci hrows] at he
          exact absurd he (by simp)
        · rintro (h | h | h)
          · exact absurd hra h
          · exact absurd hc h
          · exact absurd h hrows
  · constructor
    · intro _
      exact Or.inl hra
    · intro _
      exact ⟨.assertionError, stratified_split_assertionError hra⟩

/-- C3 counterexample: the uniform split has no ratios parameter — its cut
points are fixed at `int(0.6*n)` and `int(0.8*n)` — so the claimed cut law
fails for the valid ratios triple `(1, 0, 0)` on a 5-row table, where it
would require `|Train| = 5` but the code produces `|Train| = 3`. -/
theorem c3_counterexample :
    ¬ (∀ (r1 r2 r3 : ℚ), 0 ≤ r1 → 0 ≤ r2 → 0 ≤ r3 → r1 + r2 + r3 = 1 →
        ∀ (df : DataFrame) (seed : Nat),
          (split_dataframe df seed).1.len = pyIntNat (r1 * df.len) ∧
          (split_dataframe df seed).2.2.len = df.len - pyIntNat ((r1 + r2) * df.len)) := by
  intro h
  obtain ⟨h1, _⟩ := h 1 0 0 (by norm_num) (by norm_num) (by norm_num) (by norm_num) exDF 42
  rw [(split_dataframe_lengths exDF 42).1] at h1
  have hone : pyIntNat ((1 : ℚ) * (exDF.len : ℚ)) = exDF.len := by
    rw [one_mul, pyIntNat_natCast]
  rw [hone] at h1
  have hlen : exDF.len = 5 := rfl
  rw [hlen] at h1
  exact absurd h1 (by decide)

/-- C3 amended: the uniform split takes no ratios argument; it always uses
the fixed ratios `(0.6, 0.2, 0.2)`: one seed-derived permutation of the row
positions `[0, n)` is cut at `t1 = int(0.6*n) = 3n/5` and
`t2 = int(0.8*n) = 4n/5`, Train being the permuted positions `[0, t1)`,
Validation `[t1, t2)` and Test `[t2, n)`; in particular for `n = 100` the
sizes are exactly 60, 20, 20, and any rounding loss accrues entirely to
Test. -/
theorem c3_amended :
    ∀ (df : DataFrame) (seed : Nat),
      (∃ indices : List Nat, indices.Perm (List.range df.len) ∧
        split_dataframe df seed =
          (⟨df.cols, pick df.rows (indices.take (3 * df.len / 5))⟩,
           ⟨df.cols, pick df.rows ((indices.drop (3 * df.len / 5)).take
              (4 * df.len / 5 - 3 * df.len / 5))⟩,
           ⟨df.cols, pick df.rows (indices.drop (4 * df.len / 5))⟩)) ∧
      (split_dataframe df seed).1.len = 3 * df.len / 5 ∧
      (split_dataframe df seed).2.1.len = 4 * df.len / 5 - 3 * df.len / 5 ∧
      (split_dataframe df seed).2.2.len = df.len - 4 * df.len / 5 ∧
      (df.len = 100 →
        (split_dataframe df seed).1.len = 60 ∧
        (split_dataframe df seed).2.1.len = 20 ∧
        (split_dataframe df seed).2.2.len = 20) := by
  intro df seed
  obtain ⟨hl1, hl2, hl3⟩ := split_dataframe_lengths df seed
  refine ⟨⟨(shuffle (mkRng seed) (List.range df.len)).1,
    shuffle_fst_perm _ _, split_dataframe_std df seed⟩, hl1, hl2, hl3, ?_⟩
  intro h100
  rw [h100] at hl1 hl2 hl3
  refine ⟨?_, ?_, ?_⟩
  · rw [hl1]
  · rw [hl2]
  · rw [hl3]

theorem c3_amended_witness :
    df100.len = 100 ∧
    (split_dataframe df100 42).1.len = 60 ∧
    (split_dataframe df100 42).2.1.len = 20 ∧
    (split_dataframe df100 42).2.2.len = 20 := by
  have h := ((c3_amended df100 42).2.2.2.2) (by decide)
  exact ⟨by decide, h⟩

/-- C1: for every non-empty table and valid ratios — the spec's validity:
non-negative fractions whose sum passes the 1e-6 assertion — both splits
return three partitions whose sizes sum to the input's row count and whose
rows form an exact partition of the input's rows (as a multiset: no row
duplicated, none dropped).  For the uniform split the partition holds with
the original index labels; the stratified split renumbers indices, so its
partition law is stated on the value rows.  The non-negativity hypotheses
keep the slice model inside its faithful region (Python's negative slice
arguments behave differently from clamping). -/
theorem c1_split_partition :
    (∀ (df : DataFrame) (seed : Nat),
      (split_dataframe df seed).1.len + (split_dataframe df seed).2.1.len +
        (split_dataframe df seed).2.2.len = df.len ∧
      ((split_dataframe df seed).1.rows ++
       ((split_dataframe df seed).2.1.rows ++
        (split_dataframe df seed).2.2.rows)).Perm df.rows) ∧
    (∀ (df : DataFrame) (c : String) (seed : Nat) (ra : ℚ × ℚ × ℚ) (ci : Nat),
      df.rows ≠ [] →
      0 ≤ ra.1 → 0 ≤ ra.2.1 → 0 ≤ ra.2.2 →
      |ra.1 + ra.2.1 + ra.2.2 - 1| < 1 / 1000000 →
      df.cols.findIdx? (fun x => decide (x = c)) = some ci →
      ∃ t v te, stratified_split df c seed ra = .ok (t, v, te) ∧
        t.len + v.len + te.len = df.len ∧
        ((t.rows.map Prod.snd) ++
         ((v.rows.map Prod.snd) ++ (te.rows.map Prod.snd))).Perm
          (df.rows.map Prod.snd)) := by
  constructor
  · intro df seed
    have hperm := split_dataframe_partition df seed
    refine ⟨?_, hperm⟩
    have hlen := hperm.length_eq
    simp only [List.length_append] at hlen
    simp only [DataFrame.len]
    omega
  · intro df c seed ra ci hne _ _ _ hra hci
    exact ⟨trainDF df ci ra seed, valDF df ci ra seed, testDF df ci ra seed,
      stratified_split_ok hra hci hne, stratified_sizes df ci ra seed,
      stratified_outputs_perm df ci ra seed⟩

theorem c1_witness :
    exDF.rows ≠ [] ∧
    (0 : ℚ) ≤ 3 / 5 ∧ (0 : ℚ) ≤ 1 / 5 ∧
    |(3 / 5 : ℚ) + 1 / 5 + 1 / 5 - 1| < 1 / 1000000 ∧
    exDF.cols.findIdx? (fun x => decide (x = "class")) = some 0 ∧
    (∃ t v te,
      stratified_split exDF "class" 42 (3 / 5, 1 / 5, 1 / 5) = .ok (t, v, te) ∧
      t.len + v.len + te.len = exDF.len ∧
      ((t.rows.map Prod.snd) ++
       ((v.rows.map Prod.snd) ++ (te.rows.map Prod.snd))).Perm
        (exDF.rows.map Prod.snd)) := by
  refine ⟨by decide, by norm_num, by norm_num, ratios_std_check, by decide, ?_⟩
  exact c1_split_partition.2 exDF "class" 42 (3 / 5, 1 / 5, 1 / 5) 0 (by decide)
    (by norm_num) (by norm_num) (by norm_num) ratios_std_check (by decide)

/-- C2: under the stratified split with ratios `(0.6, 0.2, 0.2)`, every
label group of size `g` contributes exactly `int(0.6*g) = 3g/5` rows to
Train, `int(0.2*g) = g/5` rows to Validation, and the remaining
`g - 3g/5 - g/5` rows to Test — in particular groups of 50/30/20 rows
contribute 30/18/12 to Train, 10/6/4 to Validation and 10/6/4 to Test. -/
theorem c2_stratified_proportions :
    ∀ (df : DataFrame) (c : String) (seed : Nat) (ci : Nat) (k : Value),
      df.cols.findIdx? (fun x => decide (x = c)) = some ci →
      df.rows ≠ [] →
      ∃ t v te,
        stratified_split df c seed (3 / 5, 1 / 5, 1 / 5) = .ok (t, v, te) ∧
        countVal ci k t.rows = 3 * groupSize df ci k / 5 ∧
        countVal ci k v.rows = groupSize df ci k / 5 ∧
        countVal ci k te.rows =
          groupSize df ci k - 3 * groupSize df ci k / 5 - groupSize df ci k / 5 := by
  intro df c seed ci k hci hne
  have hT := @countVal_trainDF df ci (3 / 5, 1 / 5, 1 / 5) seed k
    (by norm_num) (by norm_num) (by norm_num)
  have hV := @countVal_valDF df ci (3 / 5, 1 / 5, 1 / 5) seed k
    (by norm_num) (by norm_num) (by norm_num)
  have hE := @countVal_testDF df ci (3 / 5, 1 / 5, 1 / 5) seed k
    (by norm_num) (by norm_num) (by norm_num)
  have h35 : pyIntNat ((3 / 5, (1 : ℚ) / 5, (1 : ℚ) / 5).1 * (groupSize df ci k : ℚ)) =
      3 * groupSize df ci k / 5 := pyIntNat_35 (groupSize df ci k)
  have h15 : pyIntNat ((3 / 5, (1 : ℚ) / 5, (1 : ℚ) / 5).2.1 * (groupSize df ci k : ℚ)) =
      groupSize df ci k / 5 := pyIntNat_15 (groupSize df ci k)
  rw [h35] at hT hE
  rw [h15] at hV hE
  exact ⟨trainDF df ci (3 / 5, 1 / 5, 1 / 5) seed, valDF df ci (3 / 5, 1 / 5, 1 / 5) seed,
    testDF df ci (3 / 5, 1 / 5, 1 / 5) seed,
    stratified_split_ok ratios_std_check hci hne, hT, hV, by omega⟩

theorem c2_witness :
    df100.cols.findIdx? (fun x => decide (x = "class")) = some 0 ∧
    df100.rows ≠ [] ∧
    ∃ t v te,
      stratified_split df100 "class" 42 (3 / 5, 1 / 5, 1 / 5) = .ok (t, v, te) ∧
      countVal 0 (Value.text "A") t.rows = 30 ∧
      countVal 0 (Value.text "A") v.rows = 10 ∧
      countVal 0 (Value.text "A") te.rows = 10 := by
  refine ⟨by decide, by decide, ?_⟩
  obtain ⟨t, v, te, hok, hT, hV, hE⟩ :=
    c2_stratified_proportions df100 "class" 42 0 (Value.text "A") (by decide) (by decide)
  have hg : groupSize df100 0 (Value.text "A") = 50 := by decide
  rw [hg] at hT hV hE
  exact ⟨t, v, te, hok, by omega, by omega, by omega⟩

/-- C7: in the stratified split, rows whose label value is missing form
their own group (`dropna=False`), split by the same per-group law as any
other group — never dropped, never merged, never an error: for any valid
nonnegative ratios and non-empty table with the label column present, the
call succeeds and the missing-label rows are distributed
`int(r1*m) / int(r2*m) / rest` across Train/Validation/Test, where `m` is
the number of missing-label rows. -/
theorem c7_missing_label_group :
    ∀ (df : DataFrame) (c : String) (seed : Nat) (ci : Nat) (r1 r2 r3 : ℚ),
      df.cols.findIdx? (fun x => decide (x = c)) = some ci →
      df.rows ≠ [] → 0 ≤ r1 → 0 ≤ r2 → 0 ≤ r3 → r1 + r2 + r3 = 1 →
      ∃ t v te,
        stratified_split df c seed (r1, r2, r3) = .ok (t, v, te) ∧
        countVal ci Value.missing t.rows =
          pyIntNat (r1 * groupSize df ci Value.missing) ∧
        countVal ci Value.missing v.rows =
          pyIntNat (r2 * groupSize df ci Value.missing) ∧
        countVal ci Value.missing te.rows =
          groupSize df ci Value.missing -
            (pyIntNat (r1 * groupSize df ci Value.missing) +
             pyIntNat (r2 * groupSize df ci Value.missing)) := by
  intro df c seed ci r1 r2 r3 hci hne h1 h2 h3 hsum
  have hra : |(r1, r2, r3).1 + (r1, r2, r3).2.1 + (r1, r2, r3).2.2 - 1| <
      1 / 1000000 := by
    show |r1 + r2 + r3 - 1| < 1 / 1000000
    rw [hsum]
    norm_num
  have h12 : r1 + r2 ≤ 1 := by linarith
  exact ⟨trainDF df ci (r1, r2, r3) seed, valDF df ci (r1, r2, r3) seed,
    testDF df ci (r1, r2, r3) seed, stratified_split_ok hra hci hne,
    countVal_trainDF df ci seed Value.missing h1 h2 h12,
    countVal_valDF df ci seed Value.missing h1 h2 h12,
    countVal_testDF df ci seed Value.missing h1 h2 h12⟩

theorem c7_witness :
    dfMiss.cols.findIdx? (fun x => decide (x = "class")) = some 0 ∧
    dfMiss.rows ≠ [] ∧
    ∃ t v te,
      stratified_split dfMiss "class" 42 (3 / 5, 1 / 5, 1 / 5) = .ok (t, v, te) ∧
      countVal 0 Value.missing t.rows = 1 ∧
      countVal 0 Value.missing v.rows = 0 ∧
      countVal 0 Value.missing te.rows = 2 := by
  refine ⟨by decide, by decide, ?_⟩
  obtain ⟨t, v, te, hok, hT, hV, hE⟩ :=
    c7_missing_label_group dfMiss "class" 42 0 (3 / 5) (1 / 5) (1 / 5) (by decide)
      (by decide) (by norm_num) (by norm_num) (by norm_num) (by norm_num)
  have hg : groupSize dfMiss 0 Value.missing = 3 := by decide
  rw [hg, pyIntNat_35] at hT
  rw [hg, pyIntNat_15] at hV
  rw [hg, pyIntNat_35, pyIntNat_15] at hE
  exact ⟨t, v, te, hok, by omega, by omega, by omega⟩

/-- C10: the stratified split returns each partition with a freshly reset
integer index `0..len-1` (original row identifiers discarded), while the
uniform split's partitions retain the input's original row records
(index label and values); in both cases every output has exactly the
input's column list. -/
theorem c10_output_indexing :
    ∀ (df : DataFrame) (seed : Nat),
      ((split_dataframe df seed).1.cols = df.cols ∧
       (split_dataframe df seed).2.1.cols = df.cols ∧
       (split_dataframe df seed).2.2.cols = df.cols ∧
       (∀ r ∈ (split_dataframe df seed).1.rows, r ∈ df.rows) ∧
       (∀ r ∈ (split_dataframe df seed).2.1.rows, r ∈ df.rows) ∧
       (∀ r ∈ (split_dataframe df seed).2.2.rows, r ∈ df.rows)) ∧
      (∀ (c : String) (ra : ℚ × ℚ × ℚ) (t v te : DataFrame),
        stratified_split df c seed ra = .ok (t, v, te) →
        t.cols = df.cols ∧ v.cols = df.cols ∧ te.cols = df.cols ∧
        t.rows.map Prod.fst = List.range t.len ∧
        v.rows.map Prod.fst = List.range v.len ∧
        te.rows.map Prod.fst = List.range te.len) := by
  intro df seed
  constructor
  · exact ⟨rfl, rfl, rfl,
      fun r hr => pick_mem hr, fun r hr => pick_mem hr, fun r hr => pick_mem hr⟩
  · intro c ra t v te hok
    obtain ⟨ci, hci, ht, hv, hte⟩ := stratified_split_ok_inv hok
    subst ht
    subst hv
    subst hte
    exact ⟨rfl, rfl, rfl, resetIndex_map_fst _, resetIndex_map_fst _,
      resetIndex_map_fst _⟩

theorem c10_witness :
    stratified_split exDF "class" 42 (3 / 5, 1 / 5, 1 / 5) =
      .ok (trainDF exDF 0 (3 / 5, 1 / 5, 1 / 5) 42,
           valDF exDF 0 (3 / 5, 1 / 5, 1 / 5) 42,
           testDF exDF 0 (3 / 5, 1 / 5, 1 / 5) 42) ∧
    (trainDF exDF 0 (3 / 5, 1 / 5, 1 / 5) 42).cols = exDF.cols ∧
    (trainDF exDF 0 (3 / 5, 1 / 5, 1 / 5) 42).rows.map Prod.fst =
      List.range (trainDF exDF 0 (3 / 5, 1 / 5, 1 / 5) 42).len ∧
    (split_dataframe exDF 42).1.cols = exDF.cols := by
  have hok := @stratified_split_ok exDF "class" 42 (3 / 5, 1 / 5, 1 / 5) 0
    ratios_std_check (by decide) (by decide)
  have h := (c10_output_indexing exDF 42).2 "class" (3 / 5, 1 / 5, 1 / 5) _ _ _ hok
  exact ⟨hok, h.1, h.2.2.2.1, (c10_output_indexing exDF 42).1.1⟩

/-- C8 counterexample: the two input tables contain the identical label
group `"b"` (same key, same three rows) and are split with the same seed,
yet the `"b"` rows that end up in Train differ, because the single shared
generator is advanced by the preceding `"a"` group in the second table, so
the group's internal permutation is not scoped to the group. -/
theorem c8_counterexample :
    dfB.rows.filter (fun r => decide (rowLabel 0 r = Value.text "b")) =
      dfAB.rows.filter (fun r => decide (rowLabel 0 r = Value.text "b")) ∧
    (trainValues (stratified_split dfB "c" 1 (3 / 5, 1 / 5, 1 / 5))).filter
        (fun vs => decide ((vs.get? 0).getD Value.missing = Value.text "b")) =
      [[Value.text "b", Value.num 1]] ∧
    (trainValues (stratified_split dfAB "c" 1 (3 / 5, 1 / 5, 1 / 5))).filter
        (fun vs => decide ((vs.get? 0).getD Value.missing = Value.text "b")) =
      [[Value.text "b", Value.num 2]] ∧
    ¬ ([[Value.text "b", Value.num 1]] : List (List Value)).Perm
        [[Value.text "b", Value.num 2]] := by
  have hokB : stratified_split dfB "c" 1 (3 / 5, 1 / 5, 1 / 5) =
      .ok (trainDF dfB 0 (3 / 5, 1 / 5, 1 / 5) 1, valDF dfB 0 (3 / 5, 1 / 5, 1 / 5) 1,
           testDF dfB 0 (3 / 5, 1 / 5, 1 / 5) 1) :=
    @stratified_split_ok dfB "c" 1 (3 / 5, 1 / 5, 1 / 5) 0 ratios_std_check
      (by decide) (by decide)
  have hokAB : stratified_split dfAB "c" 1 (3 / 5, 1 / 5, 1 / 5) =
      .ok (trainDF dfAB 0 (3 / 5, 1 / 5, 1 / 5) 1, valDF dfAB 0 (3 / 5, 1 / 5, 1 / 5) 1,
           testDF dfAB 0 (3 / 5, 1 / 5, 1 / 5) 1) :=
    @stratified_split_ok dfAB "c" 1 (3 / 5, 1 / 5, 1 / 5) 0 ratios_std_check
      (by decide) (by decide)
  refine ⟨by decide, ?_, ?_, by decide⟩
  · rw [hokB, trainDF_std]
    decide
  · rw [hokAB, trainDF_std]
    decide

/-- C8 amended: each group's shuffle is drawn from the single master-seeded
generator, consumed sequentially across groups in iteration order, so a
group's slices are determined by the master generator state together with
the sizes of the groups preceding it: two runs agree on a common group
exactly as far as their preceding group sizes agree (not regardless of the
other groups, as originally claimed). -/
theorem c8_amended :
    ∀ (ra : ℚ × ℚ × ℚ) (rng : Rng) (pre1 pre2 suf1 suf2 : List (List PRow))
      (g : List PRow),
      pre1.map List.length = pre2.map List.length →
      (splitGroups ra rng (pre1 ++ g :: suf1)).1.get? pre1.length =
        (splitGroups ra rng (pre2 ++ g :: suf2)).1.get? pre2.length := by
  intro ra rng pre1 pre2 suf1 suf2 g h
  rw [splitGroups_append, splitGroups_append]
  rw [List.get?_append_right (splitGroups_length ra rng pre1).le,
      List.get?_append_right (splitGroups_length ra rng pre2).le]
  rw [splitGroups_length, splitGroups_length, Nat.sub_self, Nat.sub_self]
  rw [splitGroups_cons, splitGroups_cons]
  rw [h]
  rfl

theorem c8_amended_witness :
    ([[(0, [Value.num 0])]] : List (List PRow)).map List.length =
      ([[(7, [Value.text "z"])]] : List (List PRow)).map List.length ∧
    (splitGroups (3 / 5, 1 / 5, 1 / 5) (mkRng 1)
        ([[(0, [Value.num 0])]] ++ dfB.rows :: [])).1.get? 1 =
      (splitGroups (3 / 5, 1 / 5, 1 / 5) (mkRng 1)
        ([[(7, [Value.text "z"])]] ++ dfB.rows :: [])).1.get? 1 := by
  refine ⟨by decide, ?_⟩
  exact c8_amended (3 / 5, 1 / 5, 1 / 5) (mkRng 1) [[(0, [Value.num 0])]]
    [[(7, [Value.text "z"])]] [] [] dfB.rows (by decide)

end Data07
